import Mathlib

/-!
Shallow embedding of the mmap-backed byte stream implemented in src/stream.c
(functions stream_open, stream_write, stream_read, stream_seek, stream_tell,
stream_end, stream_sync, stream_close).

Modelling conventions:

Bytes are natural numbers.  The C struct stream is mirrored field by field;
the mapped buffer address `buf` is replaced by a validity flag `winValid`
(`buf == MAP_FAILED` in the C code corresponds to `winValid = false`).
Because every mapping is MAP_SHARED, bytes stored through the window are
bytes of the backing file, so the file contents are carried in the state as
a total function from offsets to bytes, and the copy loops read and write it
directly.  The operating system primitives that can fail for external
reasons (mmap, ftruncate, msync, the descriptor calls) are modelled as
always succeeding; EINVAL, EPERM, EFBIG, ERANGE and ENOTSUP, which the code
raises itself, are modelled exactly.  On an error the C functions leave the
struct untouched, so the model simply returns the error and no state.
C long arithmetic is embedded as Int together with the explicit LONG_MAX
comparisons the source performs; C integer division truncates toward zero,
which is Int.tdiv.  The while loops of stream_write and stream_read are
embedded with a fuel argument; the fuel chosen by stream_write and
stream_read is one more than the number of bytes to transfer, which is
proved sufficient because every iteration transfers at least one byte.
-/

namespace StreamC

/-- Bytes of the file, values of an unsigned char. -/
abbrev Byte := Nat

/-- LONG_MAX of the LP64 platform the source targets. -/
def LONG_MAX : Int := 2 ^ 63 - 1

/-- Error codes the source raises itself (errno values). -/
inductive Err where
  | EINVAL
  | EPERM
  | EFBIG
  | ERANGE
  | ENOTSUP
deriving DecidableEq

/-- The struct stream of stream.c.  Field names follow the source: off, len,
brk bound the currently mapped window, blk is the block size, cur the
cursor, endp the end-of-stream position (end in the source, renamed because
end is a Lean keyword), siz the tracked file size.  The access mode bits
PROT_READ and PROT_WRITE of mod are split into the booleans modRead and
modWrite.  winValid stands for buf being a live mapping, and file carries
the contents of the backing file. -/
structure stream where
  winValid : Bool
  off : Int
  len : Int
  brk : Int
  blk : Int
  cur : Int
  endp : Int
  siz : Int
  modRead : Bool
  modWrite : Bool
  file : Int → Byte

/-- Window remap on the write path, stream.c lines 183-201, entered after
the stale window (if any) was unmapped: align the window to the block
containing the cursor, and if the window break exceeds the tracked file
size, grow the file with ftruncate, which zero-fills the new region, and
record the new size. -/
def remapWrite (s : stream) : stream :=
  let off := s.cur.tdiv s.blk * s.blk
  let len := s.blk
  let brk := off + len
  if s.siz < brk then
    { s with winValid := true, off := off, len := len, brk := brk, siz := brk,
             file := fun j => if s.siz ≤ j ∧ j < brk then 0 else s.file j }
  else
    { s with winValid := true, off := off, len := len, brk := brk }

/-- Window remap on the read path, stream.c lines 269-284: align the window
to the block containing the cursor, and if the window break would exceed the
tracked file size, shrink the window length so the window ends exactly at
the file size; the file is never grown. -/
def remapRead (s : stream) : stream :=
  let off := s.cur.tdiv s.blk * s.blk
  let len := s.blk
  let brk := off + len
  if s.siz < brk then
    { s with winValid := true, off := off, len := s.siz - off, brk := off + (s.siz - off) }
  else
    { s with winValid := true, off := off, len := len, brk := brk }

/-- Staleness check and remap of the write loop, stream.c line 182: the
window is replaced when the cursor lies before the window offset, at or past
the window break, or no mapping is held. -/
def ensureW (s : stream) : stream :=
  if s.cur < s.off ∨ s.brk ≤ s.cur ∨ s.winValid = false then remapWrite s else s

/-- Staleness check and remap of the read loop, stream.c line 268. -/
def ensureR (s : stream) : stream :=
  if s.cur < s.off ∨ s.brk ≤ s.cur ∨ s.winValid = false then remapRead s else s

/-- One iteration of the write loop, stream.c lines 179-223: ensure a valid
window, copy up to the smaller of the write break and the window break,
advance the cursor and the running counter, and pull the end-of-stream
position up to the cursor when the cursor passed it. -/
def writeStep (s : stream) (data : Int → Byte) (brk0 acc : Int) : stream × Int :=
  let s1 := ensureW s
  let wrl := (if brk0 < s1.brk then brk0 else s1.brk) - s1.cur
  let s2 : stream :=
    { s1 with
      file := fun j =>
        if s1.cur ≤ j ∧ j < s1.cur + wrl then data (acc + (j - s1.cur)) else s1.file j,
      cur := s1.cur + wrl }
  let s3 := if s2.endp < s2.cur then { s2 with endp := s2.cur } else s2
  (s3, acc + wrl)

/-- The write loop of stream.c lines 179-223, with fuel. -/
def writeLoop : Nat → stream → (Int → Byte) → Int → Int → stream × Int
  | 0, s, _, _, acc => (s, acc)
  | fuel + 1, s, data, brk0, acc =>
    if s.cur < brk0 then
      let p := writeStep s data brk0 acc
      writeLoop fuel p.1 data brk0 p.2
    else (s, acc)

/-- One iteration of the read loop, stream.c lines 265-302: ensure a valid
window, copy up to the smaller of the read break and the window break into
the caller buffer, advance the cursor and the running counter. -/
def readStep (s : stream) (out : Int → Byte) (brk0 acc : Int) :
    stream × Int × (Int → Byte) :=
  let s1 := ensureR s
  let rdl := (if brk0 < s1.brk then brk0 else s1.brk) - s1.cur
  let out1 := fun j =>
    if acc ≤ j ∧ j < acc + rdl then s1.file (s1.cur + (j - acc)) else out j
  let s2 : stream := { s1 with cur := s1.cur + rdl }
  (s2, acc + rdl, out1)

/-- The read loop of stream.c lines 265-302, with fuel. -/
def readLoop : Nat → stream → (Int → Byte) → Int → Int → stream × Int × (Int → Byte)
  | 0, s, out, _, acc => (s, acc, out)
  | fuel + 1, s, out, brk0, acc =>
    if s.cur < brk0 then
      let p := readStep s out brk0 acc
      readLoop fuel p.1 p.2.2 brk0 p.2.1
    else (s, acc, out)

/-- stream_open of stream.c lines 52-144.  The operating system inputs are
parameters: pathPresent is whether the path pointer is non-null, mode the
mode string, pageSize the sysconf page size, fileSize and blkSize the
st_size and st_blksize that fstat reports after the open call (so 0 for the
truncating write modes), and contents the bytes of the opened file.
Descriptor, fstat and malloc failures are outside the model. -/
def stream_open (pathPresent : Bool) (mode : List Char)
    (pageSize fileSize blkSize : Int) (contents : Int → Byte) :
    Except Err stream :=
  let c0 := mode.headD (Char.ofNat 0)
  if pathPresent = false ∨ (c0 ≠ 'r' ∧ c0 ≠ 'w') then .error .EINVAL
  else if pageSize < 1 then .error .ENOTSUP
  else
    let plus := mode.getD 1 (Char.ofNat 0) = '+'
    let modRead := plus ∨ c0 = 'r'
    let modWrite := plus ∨ c0 = 'w'
    if LONG_MAX < fileSize then .error .EFBIG
    else
      let blk :=
        if blkSize < LONG_MAX ∧ pageSize < blkSize ∧
            blkSize.tmod pageSize = 0 ∧ 1 < blkSize.tdiv pageSize
        then blkSize else pageSize
      .ok { winValid := false, off := 0, len := 0, brk := 0, blk := blk,
            cur := 0, endp := fileSize, siz := fileSize,
            modRead := decide modRead, modWrite := decide modWrite,
            file := contents }

/-- stream_write of stream.c lines 147-232.  A missing stream or buffer is
the none case of the corresponding option. -/
def stream_write (so : Option stream) (buf : Option (Int → Byte)) (len : Int) :
    Except Err (stream × Int) :=
  match so, buf with
  | none, _ => .error .EINVAL
  | some _, none => .error .EINVAL
  | some s, some data =>
    if len < 0 then .error .EINVAL
    else if s.modWrite = false then .error .EPERM
    else if LONG_MAX - len < s.cur then .error .EFBIG
    else .ok (writeLoop (len.toNat + 1) s data (s.cur + len) 0)

/-- stream_read of stream.c lines 235-311.  The result carries the final
stream, the count of bytes read, and the caller buffer after the copy. -/
def stream_read (so : Option stream) (buf : Option (Int → Byte)) (len : Int) :
    Except Err (stream × Int × (Int → Byte)) :=
  match so, buf with
  | none, _ => .error .EINVAL
  | some _, none => .error .EINVAL
  | some s, some out =>
    if len < 0 then .error .EINVAL
    else if s.modRead = false then .error .EPERM
    else
      let len1 := if s.endp - len < s.cur then s.endp - s.cur else len
      .ok (readLoop (len1.toNat + 1) s out (s.cur + len1) 0)

/-- stream_seek of stream.c lines 314-339. -/
def stream_seek (so : Option stream) (pos : Int) : Except Err (stream × Int) :=
  match so with
  | none => .error .EINVAL
  | some s =>
    if s.cur ≠ pos then
      let pos1 := if pos < 0 then pos + s.endp else pos
      if pos1 < 0 ∨ s.endp < pos1 then .error .ERANGE
      else .ok ({ s with cur := pos1 }, pos1)
    else .ok (s, pos)

/-- stream_tell of stream.c lines 342-348. -/
def stream_tell (so : Option stream) : Except Err Int :=
  match so with
  | none => .error .EINVAL
  | some s => .ok s.cur

/-- stream_end of stream.c lines 351-357. -/
def stream_end (so : Option stream) : Except Err Int :=
  match so with
  | none => .error .EINVAL
  | some s => .ok s.endp

/-- stream_sync of stream.c lines 360-383: msync the held window, a no-op
when no window is held.  msync touches no field of the struct, and its
failure is an operating-system pass-through outside the model, so the state
is returned unchanged. -/
def stream_sync (so : Option stream) : Except Err stream :=
  match so with
  | none => .error .EINVAL
  | some s => .ok s

/-- stream_close of stream.c lines 386-395: a no-op on a null handle;
otherwise unmap, truncate the file down to the end-of-stream position when
the tracked size exceeds it, close and free.  The result is the final
on-disk file: its contents and its size. -/
def stream_close (so : Option stream) : Option ((Int → Byte) × Int) :=
  match so with
  | none => none
  | some s => some (s.file, if s.endp < s.siz then s.endp else s.siz)

/-- State invariant of a stream at rest: the cursor, end-of-stream and
tracked file size are ordered, the block size is positive, and a held
window never extends past the tracked file size. -/
abbrev Inv (s : stream) : Prop :=
  (0 ≤ s.cur ∧ s.cur ≤ s.endp ∧ s.endp ≤ s.siz) ∧
  1 ≤ s.blk ∧ (s.winValid = true → s.brk ≤ s.siz)

/-- Postcondition of the write loop relating the initial state, the data
source, the write break and initial counter to the final state and count. -/
def WritePost (s : stream) (data : Int → Byte) (brk0 acc : Int)
    (t : stream) (res : Int) : Prop :=
  res = acc + (brk0 - s.cur) ∧
  t.cur = brk0 ∧
  t.blk = s.blk ∧
  t.modRead = s.modRead ∧
  t.modWrite = s.modWrite ∧
  s.siz ≤ t.siz ∧
  brk0 ≤ t.siz ∧
  (t.winValid = true → t.brk ≤ t.siz) ∧
  t.endp = max s.endp brk0 ∧
  (s.cur < brk0 → t.winValid = true ∧ t.off ≤ brk0 ∧ brk0 ≤ t.brk) ∧
  (¬ s.cur < brk0 → t = s) ∧
  (∀ j, s.cur ≤ j → j < brk0 → t.file j = data (acc + (j - s.cur))) ∧
  (∀ j, j < s.cur → t.file j = s.file j)

/-- Postcondition of the read loop relating the initial state, the caller
buffer, the read break and initial counter to the final state, count and
filled buffer. -/
def ReadPost (s : stream) (out : Int → Byte) (brk0 acc : Int)
    (t : stream) (res : Int) (out2 : Int → Byte) : Prop :=
  res = acc + (brk0 - s.cur) ∧
  t.cur = brk0 ∧
  t.file = s.file ∧
  t.endp = s.endp ∧
  t.siz = s.siz ∧
  t.blk = s.blk ∧
  t.modRead = s.modRead ∧
  t.modWrite = s.modWrite ∧
  (t.winValid = true → t.brk ≤ t.siz) ∧
  (s.cur < brk0 → t.winValid = true ∧ t.off ≤ brk0 ∧ brk0 ≤ t.brk) ∧
  (¬ s.cur < brk0 → t = s ∧ out2 = out) ∧
  (∀ j, acc ≤ j → j < acc + (brk0 - s.cur) → out2 j = s.file (s.cur + (j - acc))) ∧
  (∀ j, j < acc → out2 j = out j)

/-- Concrete example stream used to instantiate theorems: freshly positioned
readable and writable stream over a 20 byte file of zeros with block size
8 and no window held. -/
def sInv20 : stream :=
  { winValid := false, off := 0, len := 0, brk := 0, blk := 8,
    cur := 0, endp := 20, siz := 20, modRead := true, modWrite := true,
    file := fun _ => 0 }

/-- Concrete example stream with end-of-stream position 100. -/
def s100 : stream :=
  { winValid := false, off := 0, len := 0, brk := 0, blk := 8,
    cur := 0, endp := 100, siz := 100, modRead := true, modWrite := true,
    file := fun _ => 0 }

/-- Concrete example stream whose cursor sits at LONG_MAX. -/
def sBig : stream :=
  { winValid := false, off := 0, len := 0, brk := 0, blk := 4096,
    cur := LONG_MAX, endp := LONG_MAX, siz := LONG_MAX,
    modRead := true, modWrite := true, file := fun _ => 0 }

/-! Basic facts about the block alignment computation of the window
managers: for a nonnegative cursor and positive block size the aligned
offset is at most the cursor and the cursor lies before offset plus one
block. -/

theorem align_le {cur blk : Int} (hc : 0 ≤ cur) (hb : 1 ≤ blk) :
    cur.tdiv blk * blk ≤ cur := by
  rw [Int.tdiv_eq_ediv hc (by omega)]
  exact Int.ediv_mul_le cur (by omega)

theorem lt_align_add {cur blk : Int} (hc : 0 ≤ cur) (hb : 1 ≤ blk) :
    cur < cur.tdiv blk * blk + blk := by
  rw [Int.tdiv_eq_ediv hc (by omega)]
  have h := Int.lt_ediv_add_one_mul_self cur (b := blk) (by omega)
  have h2 : (cur / blk + 1) * blk = cur / blk * blk + blk := by ring
  omega

/-- After the staleness check and possible remap of the write loop, the
window is valid, covers the cursor, lies within the (possibly grown)
tracked file size, and all fields other than the window and the size are
unchanged; file bytes below the old size are unchanged. -/
theorem ensureW_spec (s : stream) (hc : 0 ≤ s.cur) (hb : 1 ≤ s.blk)
    (hwin : s.winValid = true → s.brk ≤ s.siz) :
    (ensureW s).winValid = true ∧
    (ensureW s).off ≤ s.cur ∧
    s.cur < (ensureW s).brk ∧
    (ensureW s).brk ≤ (ensureW s).siz ∧
    s.siz ≤ (ensureW s).siz ∧
    (ensureW s).cur = s.cur ∧
    (ensureW s).blk = s.blk ∧
    (ensureW s).endp = s.endp ∧
    (ensureW s).modRead = s.modRead ∧
    (ensureW s).modWrite = s.modWrite ∧
    (∀ j, j < s.siz → (ensureW s).file j = s.file j) := by
  have h1 := align_le hc hb
  have h2 := lt_align_add hc hb
  unfold ensureW remapWrite
  by_cases hst : s.cur < s.off ∨ s.brk ≤ s.cur ∨ s.winValid = false
  · rw [if_pos hst]
    by_cases hg : s.siz < s.cur.tdiv s.blk * s.blk + s.blk
    · rw [if_pos hg]
      dsimp only
      refine ⟨rfl, h1, h2, le_refl _, by omega, rfl, rfl, rfl, rfl, rfl, ?_⟩
      intro j hj
      rw [if_neg (by omega)]
    · rw [if_neg hg]
      dsimp only
      exact ⟨rfl, h1, h2, by omega, le_refl _, rfl, rfl, rfl, rfl, rfl,
        fun j _ => rfl⟩
  · rw [if_neg hst]
    push_neg at hst
    obtain ⟨hso, hsb, hsv⟩ := hst
    have hv : s.winValid = true := by
      cases h : s.winValid
      · exact absurd h hsv
      · rfl
    exact ⟨hv, by omega, by omega, hwin hv, le_refl _, rfl, rfl, rfl, rfl,
      rfl, fun j _ => rfl⟩

/-- After the staleness check and possible remap of the read loop, given
that the cursor lies strictly below the tracked file size, the window is
valid, covers the cursor, ends at or before the file size, and everything
except the window fields is unchanged. -/
theorem ensureR_spec (s : stream) (hc : 0 ≤ s.cur) (hb : 1 ≤ s.blk)
    (hcs : s.cur < s.siz) (hwin : s.winValid = true → s.brk ≤ s.siz) :
    (ensureR s).winValid = true ∧
    (ensureR s).off ≤ s.cur ∧
    s.cur < (ensureR s).brk ∧
    (ensureR s).brk ≤ s.siz ∧
    (ensureR s).cur = s.cur ∧
    (ensureR s).blk = s.blk ∧
    (ensureR s).endp = s.endp ∧
    (ensureR s).siz = s.siz ∧
    (ensureR s).modRead = s.modRead ∧
    (ensureR s).modWrite = s.modWrite ∧
    (ensureR s).file = s.file := by
  have h1 := align_le hc hb
  have h2 := lt_align_add hc hb
  unfold ensureR remapRead
  by_cases hst : s.cur < s.off ∨ s.brk ≤ s.cur ∨ s.winValid = false
  · rw [if_pos hst]
    by_cases hg : s.siz < s.cur.tdiv s.blk * s.blk + s.blk
    · rw [if_pos hg]
      dsimp only
      exact ⟨rfl, h1, by omega, by omega, rfl, rfl, rfl, rfl, rfl, rfl, rfl⟩
    · rw [if_neg hg]
      dsimp only
      exact ⟨rfl, h1, h2, by omega, rfl, rfl, rfl, rfl, rfl, rfl, rfl⟩
  · rw [if_neg hst]
    push_neg at hst
    obtain ⟨hso, hsb, hsv⟩ := hst
    have hv : s.winValid = true := by
      cases h : s.winValid
      · exact absurd h hsv
      · rfl
    exact ⟨hv, by omega, by omega, hwin hv, rfl, rfl, rfl, rfl, rfl, rfl, rfl⟩

/-- One write iteration transfers at least one byte, keeps the cursor at or
below the write break, leaves the window valid and covering the interval
just written, grows the size monotonically, raises the end-of-stream
position exactly to the cursor when passed, copies the data bytes into the
file over the transferred interval and touches no earlier file byte. -/
theorem writeStep_spec (s : stream) (data : Int → Byte) (brk0 acc : Int)
    (hlt : s.cur < brk0) (hc : 0 ≤ s.cur) (hb : 1 ≤ s.blk)
    (hcs : s.cur ≤ s.siz) (hwin : s.winValid = true → s.brk ≤ s.siz) :
    ∃ t wrl, writeStep s data brk0 acc = (t, acc + wrl) ∧
      1 ≤ wrl ∧
      t.cur = s.cur + wrl ∧
      t.cur ≤ brk0 ∧
      t.winValid = true ∧
      t.off ≤ s.cur ∧
      t.cur ≤ t.brk ∧
      t.brk ≤ t.siz ∧
      t.blk = s.blk ∧
      t.modRead = s.modRead ∧
      t.modWrite = s.modWrite ∧
      s.siz ≤ t.siz ∧
      t.endp = max s.endp t.cur ∧
      (∀ j, s.cur ≤ j → j < t.cur → t.file j = data (acc + (j - s.cur))) ∧
      (∀ j, j < s.cur → t.file j = s.file j) := by
  obtain ⟨w1, w2, w3, w4, w5, w6, w7, w8, w9, w10, w11⟩ := ensureW_spec s hc hb hwin
  unfold writeStep
  dsimp only
  set s1 := ensureW s with hs1
  set m := if brk0 < s1.brk then brk0 else s1.brk with hm
  have hm1 : s.cur < m := by rw [hm]; split <;> omega
  have hm2 : m ≤ brk0 := by rw [hm]; split <;> omega
  have hm3 : m ≤ s1.brk := by rw [hm]; split <;> omega
  by_cases he : s1.endp < s1.cur + (m - s1.cur)
  · rw [if_pos he]
    refine ⟨_, _, rfl, ?_, ?_, ?_, ?_, ?_, ?_, ?_, ?_, ?_, ?_, ?_, ?_, ?_, ?_⟩
    · omega
    · dsimp only; omega
    · dsimp only; omega
    · exact w1
    · exact w2
    · dsimp only; omega
    · exact w4
    · exact w7
    · exact w9
    · exact w10
    · exact w5
    · dsimp only; omega
    · intro j hj1 hj2
      dsimp only at hj2 ⊢
      rw [if_pos (by omega : s1.cur ≤ j ∧ j < s1.cur + (m - s1.cur)), w6]
    · intro j hj
      dsimp only
      rw [if_neg (by omega : ¬ (s1.cur ≤ j ∧ j < s1.cur + (m - s1.cur)))]
      exact w11 j (by omega)
  · rw [if_neg he]
    refine ⟨_, _, rfl, ?_, ?_, ?_, ?_, ?_, ?_, ?_, ?_, ?_, ?_, ?_, ?_, ?_, ?_⟩
    · omega
    · dsimp only; omega
    · dsimp only; omega
    · exact w1
    · exact w2
    · dsimp only; omega
    · exact w4
    · exact w7
    · exact w9
    · exact w10
    · exact w5
    · dsimp only; omega
    · intro j hj1 hj2
      dsimp only at hj2 ⊢
      rw [if_pos (by omega : s1.cur ≤ j ∧ j < s1.cur + (m - s1.cur)), w6]
    · intro j hj
      dsimp only
      rw [if_neg (by omega : ¬ (s1.cur ≤ j ∧ j < s1.cur + (m - s1.cur)))]
      exact w11 j (by omega)

/-- The write postcondition holds trivially when the cursor already sits at
the write break: the loop body never runs. -/
theorem WritePost_stop (s : stream) (data : Int → Byte) (brk0 acc : Int)
    (heq : s.cur = brk0) (hcs : s.cur ≤ s.siz) (hce : s.cur ≤ s.endp)
    (hwin : s.winValid = true → s.brk ≤ s.siz) :
    WritePost s data brk0 acc s acc := by
  unfold WritePost
  refine ⟨by omega, heq, rfl, rfl, rfl, le_refl _, by omega, hwin, by omega,
    ?_, fun _ => rfl, ?_, fun j _ => rfl⟩
  · intro h
    exact absurd h (by omega)
  · intro j hj1 hj2
    exact absurd (lt_of_le_of_lt hj1 hj2) (by omega)

/-- Main write loop lemma: with fuel at least the number of bytes left to
transfer, the loop runs to completion and establishes the write
postcondition.  The hypotheses are the parts of the stream invariant the
loop relies on. -/
theorem writeLoop_spec (fuel : Nat) (s : stream) (data : Int → Byte)
    (brk0 acc : Int)
    (hfuel : (brk0 - s.cur).toNat ≤ fuel)
    (hc : 0 ≤ s.cur) (hle : s.cur ≤ brk0) (hcs : s.cur ≤ s.siz)
    (hce : s.cur ≤ s.endp) (hb : 1 ≤ s.blk)
    (hwin : s.winValid = true → s.brk ≤ s.siz) :
    WritePost s data brk0 acc (writeLoop fuel s data brk0 acc).1
      (writeLoop fuel s data brk0 acc).2 := by
  induction fuel generalizing s acc with
  | zero =>
    simp only [writeLoop]
    exact WritePost_stop s data brk0 acc (by omega) hcs hce hwin
  | succ n ih =>
    by_cases hlt : s.cur < brk0
    · obtain ⟨t1, wrl, heq, q1, q2, q3, q4, q5, q6, q7, q8, q9, q10, q11,
        q12, q13, q14⟩ := writeStep_spec s data brk0 acc hlt hc hb hcs hwin
      simp only [writeLoop, if_pos hlt, heq]
      have post := ih t1 (acc + wrl) (by omega) (by omega) q3 (by omega)
        (by omega) (by omega) (fun _ => q7)
      obtain ⟨p1, p2, p3, p4, p5, p6, p7, p8, p9, p10, p11, p12, p13⟩ := post
      refine ⟨by omega, p2, by omega, by rw [p4, q9], by rw [p5, q10],
        by omega, p7, p8, by omega, ?_, fun h => absurd hlt h, ?_, ?_⟩
      · intro _
        by_cases hl2 : t1.cur < brk0
        · exact p10 hl2
        · have ht : (writeLoop n t1 data brk0 (acc + wrl)).1 = t1 := p11 hl2
          rw [ht]
          exact ⟨q4, by omega, by omega⟩
      · intro j hj1 hj2
        by_cases hjc : t1.cur ≤ j
        · rw [p12 j hjc hj2]
          congr 1
          omega
        · rw [p13 j (by omega)]
          exact q13 j hj1 (by omega)
      · intro j hj
        rw [p13 j (by omega)]
        exact q14 j hj
    · simp only [writeLoop, if_neg hlt]
      exact WritePost_stop s data brk0 acc (by omega) hcs hce hwin

/-- One read iteration transfers at least one byte, keeps the cursor at or
below the read break, leaves the window valid and within the file size,
copies file bytes into the caller buffer over the transferred interval,
touches no earlier buffer position, and changes neither the file contents
nor the end-of-stream position nor the size. -/
theorem readStep_spec (s : stream) (out : Int → Byte) (brk0 acc : Int)
    (hlt : s.cur < brk0) (hc : 0 ≤ s.cur) (hb : 1 ≤ s.blk)
    (hbs : brk0 ≤ s.siz) (hwin : s.winValid = true → s.brk ≤ s.siz) :
    ∃ t rdl out1, readStep s out brk0 acc = (t, acc + rdl, out1) ∧
      1 ≤ rdl ∧
      t.cur = s.cur + rdl ∧
      t.cur ≤ brk0 ∧
      t.winValid = true ∧
      t.off ≤ s.cur ∧
      t.cur ≤ t.brk ∧
      t.brk ≤ t.siz ∧
      t.blk = s.blk ∧
      t.endp = s.endp ∧
      t.siz = s.siz ∧
      t.modRead = s.modRead ∧
      t.modWrite = s.modWrite ∧
      t.file = s.file ∧
      (∀ j, acc ≤ j → j < acc + rdl → out1 j = s.file (s.cur + (j - acc))) ∧
      (∀ j, j < acc → out1 j = out j) := by
  obtain ⟨r1, r2, r3, r4, r5, r6, r7, r8, r9, r10, r11⟩ :=
    ensureR_spec s hc hb (by omega) hwin
  unfold readStep
  dsimp only
  set s1 := ensureR s with hs1
  set m := if brk0 < s1.brk then brk0 else s1.brk with hm
  have hm1 : s.cur < m := by rw [hm]; split <;> omega
  have hm2 : m ≤ brk0 := by rw [hm]; split <;> omega
  have hm3 : m ≤ s1.brk := by rw [hm]; split <;> omega
  refine ⟨_, _, _, rfl, ?_, ?_, ?_, ?_, ?_, ?_, ?_, ?_, ?_, ?_, ?_, ?_, ?_, ?_, ?_⟩
  · omega
  · dsimp only; omega
  · dsimp only; omega
  · exact r1
  · exact r2
  · dsimp only; omega
  · dsimp only; omega
  · exact r6
  · exact r7
  · exact r8
  · exact r9
  · exact r10
  · exact r11
  · intro j hj1 hj2
    try dsimp only at hj2 ⊢
    rw [if_pos (by omega : acc ≤ j ∧ j < acc + (m - s1.cur)), r11, r5]
  · intro j hj
    try dsimp only
    rw [if_neg (by omega : ¬ (acc ≤ j ∧ j < acc + (m - s1.cur)))]

/-- The read postcondition holds trivially when the cursor already sits at
the read break: the loop body never runs. -/
theorem ReadPost_stop (s : stream) (out : Int → Byte) (brk0 acc : Int)
    (heq : s.cur = brk0)
    (hwin : s.winValid = true → s.brk ≤ s.siz) :
    ReadPost s out brk0 acc s acc out := by
  unfold ReadPost
  refine ⟨by omega, heq, rfl, rfl, rfl, rfl, rfl, rfl, hwin, ?_,
    fun _ => ⟨rfl, rfl⟩, ?_, fun j _ => rfl⟩
  · intro h
    exact absurd h (by omega)
  · intro j hj1 hj2
    exact absurd (lt_of_le_of_lt hj1 hj2) (by omega)

/-- Main read loop lemma: with fuel at least the number of bytes left to
transfer, the loop runs to completion and establishes the read
postcondition. -/
theorem readLoop_spec (fuel : Nat) (s : stream) (out : Int → Byte)
    (brk0 acc : Int)
    (hfuel : (brk0 - s.cur).toNat ≤ fuel)
    (hc : 0 ≤ s.cur) (hle : s.cur ≤ brk0) (hbs : brk0 ≤ s.siz)
    (hb : 1 ≤ s.blk)
    (hwin : s.winValid = true → s.brk ≤ s.siz) :
    ReadPost s out brk0 acc (readLoop fuel s out brk0 acc).1
      (readLoop fuel s out brk0 acc).2.1 (readLoop fuel s out brk0 acc).2.2 := by
  induction fuel generalizing s out acc with
  | zero =>
    simp only [readLoop]
    exact ReadPost_stop s out brk0 acc (by omega) hwin
  | succ n ih =>
    by_cases hlt : s.cur < brk0
    · obtain ⟨t1, rdl, out1, heq, q1, q2, q3, q4, q5, q6, q7, q8, q9, q10,
        q11, q12, q13, q14, q15⟩ := readStep_spec s out brk0 acc hlt hc hb hbs hwin
      simp only [readLoop, if_pos hlt, heq]
      have post := ih t1 out1 (acc + rdl) (by omega) (by omega) q3 (by omega)
        (by omega) (fun _ => q7)
      obtain ⟨p1, p2, p3, p4, p5, p6, p7, p8, p9, p10, p11, p12, p13⟩ := post
      refine ⟨by omega, p2, by rw [p3, q13], by rw [p4, q9], by rw [p5, q10],
        by omega, by rw [p7, q11], by rw [p8, q12], p9, ?_,
        fun h => absurd hlt h, ?_, ?_⟩
      · intro _
        by_cases hl2 : t1.cur < brk0
        · exact p10 hl2
        · have ht : (readLoop n t1 out1 brk0 (acc + rdl)).1 = t1 := (p11 hl2).1
          rw [ht]
          exact ⟨q4, by omega, by omega⟩
      · intro j hj1 hj2
        by_cases hjc : acc + rdl ≤ j
        · rw [p12 j hjc (by omega)]
          rw [q13]
          congr 1
          omega
        · rw [p13 j (by omega)]
          exact q14 j hj1 (by omega)
      · intro j hj
        rw [p13 j (by omega)]
        exact q15 j hj
    · simp only [readLoop, if_neg hlt]
      exact ReadPost_stop s out brk0 acc (by omega) hwin

/-- stream_write on a writable stream satisfying the invariant, with a
nonnegative length that does not overflow the addressable range, succeeds,
returns exactly the requested length, advances the cursor by it, raises the
end-of-stream position to the cursor when passed, preserves the invariant,
writes the data bytes at the old cursor and touches no earlier file byte. -/
theorem stream_write_ok (s : stream) (data : Int → Byte) (len : Int)
    (hInv : Inv s) (hw : s.modWrite = true) (hlen : 0 ≤ len)
    (hov : s.cur + len ≤ LONG_MAX) :
    ∃ t, stream_write (some s) (some data) len = .ok (t, len) ∧
      t.cur = s.cur + len ∧
      t.endp = max s.endp (s.cur + len) ∧
      t.blk = s.blk ∧ t.modRead = s.modRead ∧ t.modWrite = s.modWrite ∧
      s.siz ≤ t.siz ∧ Inv t ∧
      (0 < len → t.winValid = true ∧ t.off ≤ t.cur ∧ t.cur ≤ t.brk) ∧
      (∀ j, s.cur ≤ j → j < s.cur + len → t.file j = data (j - s.cur)) ∧
      (∀ j, j < s.cur → t.file j = s.file j) := by
  obtain ⟨⟨i1, i2, i3⟩, i4, i5⟩ := hInv
  have post := writeLoop_spec (len.toNat + 1) s data (s.cur + len) 0
    (by omega) i1 (by omega) (by omega) i2 i4 i5
  obtain ⟨p1, p2, p3, p4, p5, p6, p7, p8, p9, p10, p11, p12, p13⟩ := post
  have h2 : (writeLoop (len.toNat + 1) s data (s.cur + len) 0).2 = len := by omega
  refine ⟨(writeLoop (len.toNat + 1) s data (s.cur + len) 0).1,
    ?_, p2, p9, p3, p4, p5, p6, ?_, ?_, ?_, p13⟩
  · simp only [stream_write]
    rw [if_neg (by omega), if_neg (by simp [hw]), if_neg (by omega)]
    exact congrArg Except.ok (Prod.ext rfl h2)
  · exact ⟨⟨by omega, by omega, by omega⟩, by omega, p8⟩
  · intro hpos
    obtain ⟨g1, g2, g3⟩ := p10 (by omega)
    exact ⟨g1, by omega, by omega⟩
  · intro j hj1 hj2
    rw [p12 j hj1 hj2]
    congr 1
    omega

/-- stream_read on a readable stream satisfying the invariant, with a
nonnegative requested length, succeeds, returns the lesser of the request
and the bytes left before the end-of-stream position, fills the caller
buffer with the file bytes at the old cursor, advances the cursor by the
returned count, preserves the invariant and changes no stream data. -/
theorem stream_read_ok (s : stream) (out0 : Int → Byte) (len : Int)
    (hInv : Inv s) (hr : s.modRead = true) (hlen : 0 ≤ len) :
    ∃ t out, stream_read (some s) (some out0) len =
        .ok (t, min len (s.endp - s.cur), out) ∧
      t.cur = s.cur + min len (s.endp - s.cur) ∧
      t.file = s.file ∧ t.endp = s.endp ∧ t.siz = s.siz ∧ t.blk = s.blk ∧
      t.modRead = s.modRead ∧ t.modWrite = s.modWrite ∧ Inv t ∧
      (0 < min len (s.endp - s.cur) →
        t.winValid = true ∧ t.off ≤ t.cur ∧ t.cur ≤ t.brk) ∧
      (∀ j, 0 ≤ j → j < min len (s.endp - s.cur) → out j = s.file (s.cur + j)) := by
  obtain ⟨⟨i1, i2, i3⟩, i4, i5⟩ := hInv
  simp only [stream_read]
  rw [if_neg (by omega), if_neg (by simp [hr])]
  set len1 := if s.endp - len < s.cur then s.endp - s.cur else len with hlen1
  have hl1 : len1 = min len (s.endp - s.cur) := by rw [hlen1]; split <;> omega
  have post := readLoop_spec (len1.toNat + 1) s out0 (s.cur + len1) 0
    (by omega) i1 (by omega) (by omega) i4 i5
  obtain ⟨p1, p2, p3, p4, p5, p6, p7, p8, p9, p10, p11, p12, p13⟩ := post
  have h2 : (readLoop (len1.toNat + 1) s out0 (s.cur + len1) 0).2.1 =
      min len (s.endp - s.cur) := by omega
  refine ⟨(readLoop (len1.toNat + 1) s out0 (s.cur + len1) 0).1,
    (readLoop (len1.toNat + 1) s out0 (s.cur + len1) 0).2.2,
    congrArg Except.ok (Prod.ext rfl (Prod.ext h2 rfl)),
    by omega, p3, p4, p5, p6, p7, p8, ?_, ?_, ?_⟩
  · refine ⟨⟨by omega, ?_, by omega⟩, by omega, p9⟩
    rw [p2, p4]
    omega
  · intro hpos
    obtain ⟨g1, g2, g3⟩ := p10 (by omega)
    have hcb : (readLoop (len1.toNat + 1) s out0 (s.cur + len1) 0).1.cur =
        s.cur + len1 := p2
    exact ⟨g1, by omega, by omega⟩
  · intro j hj1 hj2
    rw [p12 j (by omega) (by omega)]
    congr 1
    omega

/-- stream_seek with a nonnegative target at or before the end-of-stream
position succeeds and moves only the cursor. -/
theorem stream_seek_ok (s : stream) (p : Int) (hp0 : 0 ≤ p) (hpe : p ≤ s.endp) :
    stream_seek (some s) p = .ok ({ s with cur := p }, p) := by
  simp only [stream_seek]
  by_cases hc : s.cur = p
  · rw [if_neg (by omega), ← hc]
  · rw [if_pos hc]
    rw [if_neg (by omega : ¬ p < 0), if_neg (by omega)]

/-- Side conditions implied by a successful stream_write: the length was
nonnegative, the stream was writable, and the span did not overflow. -/
theorem stream_write_success (s : stream) (data : Int → Byte) (len : Int)
    (t : stream) (n : Int)
    (h : stream_write (some s) (some data) len = .ok (t, n)) :
    0 ≤ len ∧ s.modWrite = true ∧ s.cur + len ≤ LONG_MAX := by
  have hlen : ¬ len < 0 := by
    intro hneg
    rw [show stream_write (some s) (some data) len = .error .EINVAL by
      simp only [stream_write]; rw [if_pos hneg]] at h
    exact Except.noConfusion h
  have hwmod : s.modWrite = true := by
    cases hmw : s.modWrite
    · rw [show stream_write (some s) (some data) len = .error .EPERM by
        simp only [stream_write]; rw [if_neg hlen, if_pos hmw]] at h
      exact Except.noConfusion h
    · rfl
  have hov : ¬ LONG_MAX - len < s.cur := by
    intro hbad
    rw [show stream_write (some s) (some data) len = .error .EFBIG by
      simp only [stream_write]
      rw [if_neg hlen, if_neg (by simp [hwmod]), if_pos hbad]] at h
    exact Except.noConfusion h
  exact ⟨by omega, hwmod, by omega⟩

/-- Side conditions implied by a successful stream_read: the length was
nonnegative and the stream was readable. -/
theorem stream_read_success (s : stream) (out0 : Int → Byte) (len : Int)
    (t : stream) (n : Int) (out : Int → Byte)
    (h : stream_read (some s) (some out0) len = .ok (t, n, out)) :
    0 ≤ len ∧ s.modRead = true := by
  have hlen : ¬ len < 0 := by
    intro hneg
    rw [show stream_read (some s) (some out0) len = .error .EINVAL by
      simp only [stream_read]; rw [if_pos hneg]] at h
    exact Except.noConfusion h
  have hrmod : s.modRead = true := by
    cases hmr : s.modRead
    · rw [show stream_read (some s) (some out0) len = .error .EPERM by
        simp only [stream_read]; rw [if_neg hlen, if_pos hmr]] at h
      exact Except.noConfusion h
    · rfl
  exact ⟨by omega, hrmod⟩

/-- C1: on a stream with read and write capability satisfying the state
invariant, for every byte sequence of nonnegative length n and every
position p between 0 and the end-of-stream position whose write span does
not overflow the addressable range: seeking to p, writing the n bytes
(which succeeds and returns n), seeking back to p and reading n bytes
returns n and the bytes read equal the bytes written.  The statement covers
spans crossing block-size window boundaries, since p and n are arbitrary. -/
theorem c1_round_trip (s : stream) (data : Int → Byte) (p n : Int)
    (hInv : Inv s) (hr : s.modRead = true) (hw : s.modWrite = true)
    (hp0 : 0 ≤ p) (hpe : p ≤ s.endp) (hn : 0 ≤ n) (hov : p + n ≤ LONG_MAX) :
    ∃ s1 s2 s3 t out,
      stream_seek (some s) p = .ok (s1, p) ∧
      stream_write (some s1) (some data) n = .ok (s2, n) ∧
      stream_seek (some s2) p = .ok (s3, p) ∧
      stream_read (some s3) (some (fun _ => 0)) n = .ok (t, n, out) ∧
      (∀ j, 0 ≤ j → j < n → out j = data j) := by
  obtain ⟨⟨i1, i2, i3⟩, i4, i5⟩ := hInv
  have hseek1 := stream_seek_ok s p hp0 hpe
  have hInv1 : Inv { s with cur := p } := ⟨⟨hp0, hpe, i3⟩, i4, i5⟩
  obtain ⟨s2, hwr, w_cur, w_endp, w_blk, w_mr, w_mw, w_siz, w_inv, w_win,
    w_span, w_below⟩ := stream_write_ok { s with cur := p } data n hInv1 hw hn hov
  dsimp only at w_cur w_endp w_span w_below
  have hpe2 : p ≤ s2.endp := by omega
  have hseek2 := stream_seek_ok s2 p hp0 hpe2
  obtain ⟨⟨k1, k2, k3⟩, k4, k5⟩ := w_inv
  have hInv2 : Inv { s2 with cur := p } := ⟨⟨hp0, hpe2, k3⟩, k4, k5⟩
  have hr2 : s2.modRead = true := by rw [w_mr]; exact hr
  obtain ⟨t, out, hrd, r_cur, r_file, r_endp, r_siz, r_blk, r_mr, r_mw,
    r_inv, r_win, r_bytes⟩ :=
    stream_read_ok { s2 with cur := p } (fun _ => 0) n hInv2 hr2 hn
  dsimp only at hrd r_bytes
  have hmin : min n (s2.endp - p) = n := by omega
  rw [hmin] at hrd r_bytes
  refine ⟨{ s with cur := p }, s2, { s2 with cur := p }, t, out,
    hseek1, hwr, hseek2, hrd, ?_⟩
  intro j hj0 hjn
  rw [r_bytes j hj0 hjn, w_span (p + j) (by omega) (by omega)]
  congr 1
  omega

/-- C1 witness: the concrete boundary-crossing scenario scaled to block
size 8: write 10 bytes at offset 7, spanning the three windows that start
at 0, 8 and 16, then read them back. -/
theorem c1_round_trip_witness :
    Inv sInv20 ∧ sInv20.modRead = true ∧ sInv20.modWrite = true ∧
    (0:Int) ≤ 7 ∧ (7:Int) ≤ sInv20.endp ∧ (0:Int) ≤ 10 ∧
    (7:Int) + 10 ≤ LONG_MAX ∧
    (∃ s1 s2 s3 t out,
      stream_seek (some sInv20) 7 = .ok (s1, 7) ∧
      stream_write (some s1) (some (fun j => j.toNat + 1)) 10 = .ok (s2, 10) ∧
      stream_seek (some s2) 7 = .ok (s3, 7) ∧
      stream_read (some s3) (some (fun _ => 0)) 10 = .ok (t, 10, out) ∧
      (∀ j, 0 ≤ j → j < 10 → out j = (fun j : Int => j.toNat + 1) j)) :=
  ⟨by decide, rfl, rfl, by decide, by decide, by decide, by decide,
    c1_round_trip sInv20 (fun j => j.toNat + 1) 7 10 (by decide) rfl rfl
      (by decide) (by decide) (by decide) (by decide)⟩

/-- C2: on a readable stream satisfying the state invariant (so with cursor
at most the end-of-stream position) and any nonnegative requested length,
stream_read succeeds and returns exactly the lesser of the request and the
bytes available before the end-of-stream position, copying that available
prefix into the caller buffer; when the cursor already equals the
end-of-stream position the returned count is 0 and not an error. -/
theorem c2_short_read (s : stream) (out0 : Int → Byte) (len : Int)
    (hInv : Inv s) (hr : s.modRead = true) (hlen : 0 ≤ len) :
    ∃ t out, stream_read (some s) (some out0) len =
        .ok (t, min len (s.endp - s.cur), out) ∧
      (∀ j, 0 ≤ j → j < min len (s.endp - s.cur) → out j = s.file (s.cur + j)) ∧
      (s.cur = s.endp → min len (s.endp - s.cur) = 0) := by
  obtain ⟨t, out, h1, _, _, _, _, _, _, _, _, _, hbytes⟩ :=
    stream_read_ok s out0 len hInv hr hlen
  exact ⟨t, out, h1, hbytes, fun hc => by omega⟩

/-- C2 witness: request 30 bytes from cursor 0 on a 20 byte stream: the
read succeeds with exactly 20 bytes. -/
theorem c2_short_read_witness :
    Inv s100 ∧ s100.modRead = true ∧ (0:Int) ≤ 130 ∧
    (∃ t out, stream_read (some s100) (some (fun _ => 7)) 130 =
        .ok (t, min 130 (s100.endp - s100.cur), out) ∧
      (∀ j, 0 ≤ j → j < min 130 (s100.endp - s100.cur) →
        out j = s100.file (s100.cur + j)) ∧
      (s100.cur = s100.endp → min 130 (s100.endp - s100.cur) = 0)) :=
  ⟨by decide, rfl, by decide,
    c2_short_read s100 (fun _ => 7) 130 (by decide) rfl (by decide)⟩

/-- C3: on a stream satisfying the cursor bounds of the invariant,
stream_seek with target p succeeds exactly when the resolved position
(p itself when nonnegative, p plus the end-of-stream position otherwise)
lies between 0 and the end-of-stream position; on success it returns the
resolved position, only the cursor changes, and a subsequent stream_tell
returns exactly the resolved position; otherwise it fails with ERANGE
(the model returns no state on an error, matching the source, which leaves
the struct untouched on the failure path). -/
theorem c3_seek_bounds (s : stream) (p : Int)
    (h0 : 0 ≤ s.cur) (hce : s.cur ≤ s.endp) :
    ((if p < 0 then p + s.endp else p) < 0 ∨
        s.endp < (if p < 0 then p + s.endp else p) →
      stream_seek (some s) p = .error .ERANGE) ∧
    (0 ≤ (if p < 0 then p + s.endp else p) →
      (if p < 0 then p + s.endp else p) ≤ s.endp →
      stream_seek (some s) p =
        .ok ({ s with cur := if p < 0 then p + s.endp else p },
             if p < 0 then p + s.endp else p) ∧
      stream_tell (some { s with cur := if p < 0 then p + s.endp else p }) =
        .ok (if p < 0 then p + s.endp else p)) := by
  constructor
  · intro hfail
    have hne : s.cur ≠ p := by
      intro hcp
      rw [if_neg (by omega : ¬ p < 0)] at hfail
      omega
    simp only [stream_seek]
    rw [if_pos hne, if_pos ?_]
    by_cases hpn : p < 0
    · rw [if_pos hpn]
      rw [if_pos hpn] at hfail
      omega
    · rw [if_neg hpn]
      rw [if_neg hpn] at hfail
      omega
  · intro hlo hhi
    refine ⟨?_, rfl⟩
    by_cases hpn : p < 0
    · rw [if_pos hpn] at hlo hhi ⊢
      have hne : s.cur ≠ p := by omega
      simp only [stream_seek]
      rw [if_pos hne]
      rw [if_pos hpn]
      rw [if_neg (by omega)]
    · rw [if_neg hpn] at hlo hhi ⊢
      exact stream_seek_ok s p (by omega) hhi

/-- C3 witness: with end-of-stream position 100, seeking to -1 resolves to
99 and succeeds, and seeking to -200 fails with ERANGE. -/
theorem c3_seek_bounds_witness :
    stream_seek (some s100) (-1) = .ok ({ s100 with cur := 99 }, 99) ∧
    stream_tell (some { s100 with cur := (99:Int) }) = .ok 99 ∧
    stream_seek (some s100) (-200) = .error .ERANGE
 := by
  refine ⟨?_, ?_, ?_⟩
  · exact ((c3_seek_bounds s100 (-1) (by decide) (by decide)).2
      (by decide) (by decide)).1
  · exact ((c3_seek_bounds s100 (-1) (by decide) (by decide)).2
      (by decide) (by decide)).2
  · exact (c3_seek_bounds s100 (-200) (by decide) (by decide)).1 (by decide)

/-- C4: on a writable stream satisfying the state invariant, whenever
stream_write returns successfully the returned count equals the requested
length exactly (never a short write) and the cursor has advanced by that
length. -/
theorem c4_write_exact (s : stream) (data : Int → Byte) (len : Int)
    (t : stream) (n : Int) (hInv : Inv s)
    (h : stream_write (some s) (some data) len = .ok (t, n)) :
    n = len ∧ t.cur = s.cur + len := by
  have hlen : ¬ len < 0 := by
    intro hneg
    rw [show stream_write (some s) (some data) len = .error .EINVAL by
      simp only [stream_write]; rw [if_pos hneg]] at h
    exact Except.noConfusion h
  have hwmod : s.modWrite = true := by
    cases hmw : s.modWrite
    · rw [show stream_write (some s) (some data) len = .error .EPERM by
        simp only [stream_write]; rw [if_neg hlen, if_pos hmw]] at h
      exact Except.noConfusion h
    · rfl
  have hov : ¬ LONG_MAX - len < s.cur := by
    intro hbad
    rw [show stream_write (some s) (some data) len = .error .EFBIG by
      simp only [stream_write]
      rw [if_neg hlen, if_neg (by simp [hwmod]), if_pos hbad]] at h
    exact Except.noConfusion h
  obtain ⟨t0, heq0, hcur0, _⟩ :=
    stream_write_ok s data len hInv hwmod (by omega) (by omega)
  rw [heq0] at h
  have h3 := Except.ok.inj h
  have ht : t0 = t := congrArg Prod.fst h3
  have hn : (len : Int) = n := congrArg Prod.snd h3
  rw [← ht, ← hn]
  exact ⟨rfl, hcur0⟩

/-- C4 witness: writing 3 bytes to the concrete stream returns exactly 3
and advances the cursor to 3. -/
theorem c4_write_exact_witness :
    Inv sInv20 ∧
    (∃ t n, stream_write (some sInv20) (some (fun _ => 1)) 3 = .ok (t, n) ∧
      n = 3 ∧ t.cur = sInv20.cur + 3) :=
  ⟨by decide, _, _, rfl,
    c4_write_exact sInv20 (fun _ => 1) 3 _ _ (by decide) rfl⟩

/-- C5: the state invariant 0 ≤ cursor ≤ end-of-stream ≤ tracked file size
(together with the positive block size and the auxiliary fact that a held
window never extends past the tracked size) is established by every
successful open with the nonnegative file size fstat reports, and is
preserved by every successful write, read, seek and sync. -/
theorem c5_invariant :
    (∀ pp m pS fS bS c s, 0 ≤ fS →
      stream_open pp m pS fS bS c = .ok s → Inv s) ∧
    (∀ s data len t n, Inv s →
      stream_write (some s) (some data) len = .ok (t, n) → Inv t) ∧
    (∀ s out0 len t n out, Inv s →
      stream_read (some s) (some out0) len = .ok (t, n, out) → Inv t) ∧
    (∀ s p t r, Inv s → stream_seek (some s) p = .ok (t, r) → Inv t) ∧
    (∀ s t, Inv s → stream_sync (some s) = .ok t → Inv t) := by
  refine ⟨?_, ?_, ?_, ?_, ?_⟩
  · intro pp m pS fS bS c s hfS h
    simp only [stream_open] at h
    by_cases hA : pp = false ∨
        (m.headD (Char.ofNat 0) ≠ 'r' ∧ m.headD (Char.ofNat 0) ≠ 'w')
    · rw [if_pos hA] at h
      exact Except.noConfusion h
    · rw [if_neg hA] at h
      by_cases hB : pS < 1
      · rw [if_pos hB] at h
        exact Except.noConfusion h
      · rw [if_neg hB] at h
        by_cases hC : LONG_MAX < fS
        · rw [if_pos hC] at h
          exact Except.noConfusion h
        · rw [if_neg hC] at h
          obtain rfl := Except.ok.inj h
          refine ⟨⟨le_refl 0, hfS, le_refl fS⟩, ?_,
            fun hh => absurd hh (by simp)⟩
          dsimp only
          split
          · omega
          · omega
  · intro s data len t n hInv h
    obtain ⟨hlen, hwmod, hov⟩ := stream_write_success s data len t n h
    obtain ⟨t0, heq0, _, _, _, _, _, _, hInv0, _, _, _⟩ :=
      stream_write_ok s data len hInv hwmod hlen hov
    rw [heq0] at h
    have ht : t0 = t := congrArg Prod.fst (Except.ok.inj h)
    rw [← ht]
    exact hInv0
  · intro s out0 len t n out hInv h
    obtain ⟨hlen, hrmod⟩ := stream_read_success s out0 len t n out h
    obtain ⟨t0, out2, heq0, _, _, _, _, _, _, _, hInv0, _, _⟩ :=
      stream_read_ok s out0 len hInv hrmod hlen
    rw [heq0] at h
    have ht : t0 = t := congrArg Prod.fst (Except.ok.inj h)
    rw [← ht]
    exact hInv0
  · intro s p t r hInv h
    obtain ⟨⟨i1, i2, i3⟩, i4, i5⟩ := hInv
    simp only [stream_seek] at h
    by_cases hc : s.cur ≠ p
    · rw [if_pos hc] at h
      by_cases hb : (if p < 0 then p + s.endp else p) < 0 ∨
          s.endp < (if p < 0 then p + s.endp else p)
      · rw [if_pos hb] at h
        exact Except.noConfusion h
      · rw [if_neg hb] at h
        have ht : { s with cur := if p < 0 then p + s.endp else p } = t :=
          congrArg Prod.fst (Except.ok.inj h)
        rw [← ht]
        push_neg at hb
        refine ⟨⟨?_, ?_, i3⟩, i4, i5⟩ <;> dsimp only <;> omega
    · rw [if_neg hc] at h
      have ht : s = t := congrArg Prod.fst (Except.ok.inj h)
      rw [← ht]
      exact ⟨⟨i1, i2, i3⟩, i4, i5⟩
  · intro s t hInv h
    have ht : s = t := Except.ok.inj h
    rw [← ht]
    exact hInv

/-- C5 witness: writing 9 bytes to the concrete invariant-satisfying stream
produces a stream that still satisfies the invariant. -/
theorem c5_invariant_witness :
    Inv sInv20 ∧
    (∃ t n, stream_write (some sInv20) (some (fun _ => 2)) 9 = .ok (t, n) ∧
      Inv t) :=
  ⟨by decide, _, _, rfl,
    c5_invariant.2.1 sInv20 (fun _ => 2) 9 _ _ (by decide) rfl⟩

/-- C6 counterexample: at page size 1 and preferred st_blksize LONG_MAX,
the preferred size is a clean integer multiple of the page size greater
than one times it, yet the chosen block size stays at the page size,
because the code upgrades only when st_blksize < LONG_MAX also holds; the
claim as stated requires the upgrade here. -/
theorem c6_counterexample :
    (stream_open true ['w'] 1 0 LONG_MAX (fun _ => 0)).map (fun s => s.blk) =
      .ok 1 ∧
    LONG_MAX.tmod 1 = 0 ∧ 1 < LONG_MAX.tdiv 1 ∧ (1 : Int) ≠ LONG_MAX := by
  exact ⟨rfl, by decide, by decide, by decide⟩

/-- C6 amended: for every successful open the effective block size equals
the system page size, upgraded to the preferred st_blksize exactly when the
preferred size is below LONG_MAX and is a clean integer multiple strictly
greater than one times the page size; otherwise the page size is kept. -/
theorem c6_block_size (pp : Bool) (m : List Char) (pS fS bS : Int)
    (c : Int → Byte) (s : stream)
    (h : stream_open pp m pS fS bS c = .ok s) :
    (bS < LONG_MAX ∧ bS.tmod pS = 0 ∧ 1 < bS.tdiv pS → s.blk = bS) ∧
    (¬ (bS < LONG_MAX ∧ bS.tmod pS = 0 ∧ 1 < bS.tdiv pS) → s.blk = pS) := by
  simp only [stream_open] at h
  by_cases hA : pp = false ∨
      (m.headD (Char.ofNat 0) ≠ 'r' ∧ m.headD (Char.ofNat 0) ≠ 'w')
  · rw [if_pos hA] at h
    exact Except.noConfusion h
  · rw [if_neg hA] at h
    by_cases hB : pS < 1
    · rw [if_pos hB] at h
      exact Except.noConfusion h
    · rw [if_neg hB] at h
      by_cases hC : LONG_MAX < fS
      · rw [if_pos hC] at h
        exact Except.noConfusion h
      · rw [if_neg hC] at h
        by_cases hD : bS < LONG_MAX ∧ pS < bS ∧
            bS.tmod pS = 0 ∧ 1 < bS.tdiv pS
        · rw [if_pos hD] at h
          obtain rfl := Except.ok.inj h
          constructor
          · intro _
            rfl
          · intro hnot
            exact absurd ⟨hD.1, hD.2.2.1, hD.2.2.2⟩ hnot
        · rw [if_neg hD] at h
          obtain rfl := Except.ok.inj h
          constructor
          · intro hcond
            obtain ⟨c1, c2, c3⟩ := hcond
            have key := Int.tdiv_add_tmod bS pS
            have hq : 2 ≤ bS.tdiv pS := by omega
            have h2b : pS * 2 ≤ pS * (bS.tdiv pS) :=
              mul_le_mul_of_nonneg_left hq (by omega)
            exact absurd ⟨c1, by omega, c2, c3⟩ hD
          · intro _
            rfl

/-- C6 witness for the amended statement: page size 4096 with preferred
size 8192 upgrades the block size to 8192. -/
theorem c6_block_size_witness :
    ∃ s, stream_open true ['r'] 4096 0 8192 (fun _ => 0) = .ok s ∧
      s.blk = 8192 := by
  refine ⟨_, rfl, ?_⟩
  exact (c6_block_size true ['r'] 4096 0 8192 (fun _ => 0) _ rfl).1
    ⟨by decide, by decide, by decide⟩

/-- C7: on a writable stream with nonnegative length, stream_write fails
with EFBIG exactly when cursor plus length exceeds LONG_MAX, the
addressable range; the model returns no state on the error, matching the
source, which leaves cursor, end-of-stream and size untouched on that
path. -/
theorem c7_file_too_large (s : stream) (data : Int → Byte) (len : Int)
    (hw : s.modWrite = true) (hlen : 0 ≤ len) :
    stream_write (some s) (some data) len = .error .EFBIG ↔
      LONG_MAX < s.cur + len := by
  simp only [stream_write]
  rw [if_neg (by omega), if_neg (by simp [hw])]
  by_cases hov : LONG_MAX - len < s.cur
  · rw [if_pos hov]
    exact ⟨fun _ => by omega, fun _ => rfl⟩
  · rw [if_neg hov]
    exact ⟨fun hh => Except.noConfusion hh, fun hh => absurd hh (by omega)⟩

/-- C7 witness: with the cursor at LONG_MAX, writing one byte fails with
EFBIG. -/
theorem c7_file_too_large_witness :
    sBig.modWrite = true ∧ (0:Int) ≤ 1 ∧
    stream_write (some sBig) (some (fun _ => 0)) 1 = .error .EFBIG :=
  ⟨rfl, by decide,
    (c7_file_too_large sBig (fun _ => 0) 1 rfl (by decide)).mpr (by decide)⟩

/-- C8: stream_sync on a live stream alters no field of the state (cursor,
end-of-stream, window validity and bounds, contents included) and succeeds;
in particular it is a no-op success when no window is held, and two
consecutive syncs both succeed and leave the stream and file contents
unchanged between them.  msync failures are operating-system pass-through
outside the model. -/
theorem c8_sync_frame (s : stream) :
    stream_sync (some s) = .ok s ∧
    (stream_sync (some s)).bind (fun t => stream_sync (some t)) = .ok s :=
  ⟨rfl, rfl⟩

/-- C9 counterexample: two reachable states violate the claim that between
operations a held mapping satisfies offset ≤ cursor < bound.  Opening a
fresh read-write stream with page size 8 and writing exactly 8 bytes ends
with a held window [0, 8) and cursor 8, at the bound, not inside the
half-open interval; writing 9 bytes and seeking back to 0 ends with a held
window [8, 16) and cursor 0, before the offset. -/
theorem c9_counterexample :
    ((stream_open true ['w', '+'] 8 0 8 (fun _ => 0)).bind (fun s0 =>
        stream_write (some s0) (some (fun _ => 1)) 8)).map
      (fun q => (q.1.winValid, q.1.cur, q.1.off, q.1.brk)) =
      .ok (true, 8, 0, 8) ∧
    ¬ ((8:Int) < 8) ∧
    ((stream_open true ['w', '+'] 8 0 8 (fun _ => 0)).bind (fun s0 =>
        (stream_write (some s0) (some (fun _ => 1)) 9).bind (fun q =>
          stream_seek (some q.1) 0))).map
      (fun q => (q.1.winValid, q.1.cur, q.1.off, q.1.brk)) =
      .ok (true, 0, 8, 16) ∧
    ¬ ((8:Int) ≤ 0) :=
  ⟨rfl, by decide, rfl, by decide⟩

/-- C9 amended: after open no window is held; immediately after a write or
read that transfers at least one byte, a window is held and satisfies
offset ≤ cursor ≤ bound, where the cursor may rest exactly at the bound; a
seek (or an operation transferring no byte after such a seek) can leave the
cursor outside the held window, and that staleness is detected and repaired
on the next byte transfer. -/
theorem c9_window_after_transfer :
    (∀ pp m pS fS bS c s, stream_open pp m pS fS bS c = .ok s →
      s.winValid = false) ∧
    (∀ s data len t n, Inv s →
      stream_write (some s) (some data) len = .ok (t, n) → 0 < n →
      t.winValid = true ∧ t.off ≤ t.cur ∧ t.cur ≤ t.brk) ∧
    (∀ s out0 len t n out, Inv s →
      stream_read (some s) (some out0) len = .ok (t, n, out) → 0 < n →
      t.winValid = true ∧ t.off ≤ t.cur ∧ t.cur ≤ t.brk) := by
  refine ⟨?_, ?_, ?_⟩
  · intro pp m pS fS bS c s h
    simp only [stream_open] at h
    by_cases hA : pp = false ∨
        (m.headD (Char.ofNat 0) ≠ 'r' ∧ m.headD (Char.ofNat 0) ≠ 'w')
    · rw [if_pos hA] at h
      exact Except.noConfusion h
    · rw [if_neg hA] at h
      by_cases hB : pS < 1
      · rw [if_pos hB] at h
        exact Except.noConfusion h
      · rw [if_neg hB] at h
        by_cases hC : LONG_MAX < fS
        · rw [if_pos hC] at h
          exact Except.noConfusion h
        · rw [if_neg hC] at h
          obtain rfl := Except.ok.inj h
          rfl
  · intro s data len t n hInv h hn
    obtain ⟨hlen, hwmod, hov⟩ := stream_write_success s data len t n h
    obtain ⟨t0, heq0, _, _, _, _, _, _, _, hwin0, _, _⟩ :=
      stream_write_ok s data len hInv hwmod hlen hov
    rw [heq0] at h
    have h3 := Except.ok.inj h
    have ht : t0 = t := congrArg Prod.fst h3
    have hn2 : (len : Int) = n := congrArg Prod.snd h3
    rw [← ht]
    exact hwin0 (by omega)
  · intro s out0 len t n out hInv h hn
    obtain ⟨hlen, hrmod⟩ := stream_read_success s out0 len t n out h
    obtain ⟨t0, out2, heq0, _, _, _, _, _, _, _, _, hwin0, _⟩ :=
      stream_read_ok s out0 len hInv hrmod hlen
    rw [heq0] at h
    have h3 := Except.ok.inj h
    have ht : t0 = t := congrArg Prod.fst h3
    have hn2 : min len (s.endp - s.cur) = n := congrArg (fun q => q.2.1) h3
    rw [← ht]
    exact hwin0 (by omega)

/-- C9 witness for the amended statement: writing 9 bytes to the concrete
stream leaves a held window whose offset is at most the cursor, which is at
most the bound. -/
theorem c9_window_after_transfer_witness :
    Inv sInv20 ∧
    (∃ t n, stream_write (some sInv20) (some (fun _ => 3)) 9 = .ok (t, n) ∧
      0 < n ∧
      (t.winValid = true ∧ t.off ≤ t.cur ∧ t.cur ≤ t.brk)) :=
  ⟨by decide, _, _, rfl, by decide,
    c9_window_after_transfer.2.1 sInv20 (fun _ => 3) 9 _ _ (by decide) rfl
      (by decide)⟩

/-- C10: every fallible operation applied to a null stream handle fails
with EINVAL (the -1 return with errno EINVAL of the source) touching no
state, and stream_close on a null handle is a harmless no-op. -/
theorem c10_null_handle :
    (∀ buf len, stream_write none buf len = .error .EINVAL) ∧
    (∀ buf len, stream_read none buf len = .error .EINVAL) ∧
    (∀ p, stream_seek none p = .error .EINVAL) ∧
    stream_tell none = .error .EINVAL ∧
    stream_end none = .error .EINVAL ∧
    stream_sync none = .error .EINVAL ∧
    stream_close none = none :=
  ⟨fun _ _ => rfl, fun _ _ => rfl, fun _ => rfl, rfl, rfl, rfl, rfl⟩

end StreamC
